import Mathlib

/-!
# Verification of the GEO web-crawling script's first-party logic

Shallow embedding of `src/data/web_crawling.py`. Python strings are
modelled as `List Char`; Python's `text.split("\n")` becomes `splitNl`,
Python's `str.strip()` becomes `pyStrip`, and the chunking routine
`chunk_text_for_agent` is translated line by line. The orchestrator's
credential lookup and per-item record construction are modelled with the
environment and the external `markdownify` conversion as parameters.
-/

namespace WebCrawling

/-- Python's default `str.strip()` whitespace characters (the ASCII ones:
space, tab, line feed, carriage return, vertical tab, form feed). -/
def isSpaceChar (c : Char) : Bool :=
  c = ' ' || c = '\t' || c = '\n' || c = '\r' || c = '\x0b' || c = '\x0c'

/-- Python `s.strip()`: remove leading and trailing whitespace. -/
def pyStrip (l : List Char) : List Char :=
  (l.dropWhile isSpaceChar).rdropWhile isSpaceChar

/-- Python `text.split("\n")`: split on every line feed, keeping empty
pieces; the empty string yields `[""]`. -/
def splitNl : List Char → List (List Char)
  | [] => [[]]
  | c :: cs =>
    if c = '\n' then [] :: splitNl cs
    else
      match splitNl cs with
      | [] => [[c]]
      | l :: ls => (c :: l) :: ls

/-- The loop of `chunk_text_for_agent`: state is the remaining paragraphs,
the accumulator `current` and the chunks emitted so far.

Python source:
```
for paragraph in text.split("\n"):
    if len(current) + len(paragraph) + 1 <= max_chunk_chars:
        current += paragraph + "\n"
    else:
        if current:
            chunks.append(current.strip())
        current = paragraph + "\n"
if current:
    chunks.append(current.strip())
```
-/
def chunkAux (m : Int) : List (List Char) → List Char → List (List Char) →
    List (List Char)
  | [], current, chunks =>
    if current = [] then chunks else chunks ++ [pyStrip current]
  | p :: ps, current, chunks =>
    if (current.length : Int) + (p.length : Int) + 1 ≤ m then
      chunkAux m ps (current ++ p ++ [ '\n' ]) chunks
    else
      chunkAux m ps (p ++ [ '\n' ])
        (if current = [] then chunks else chunks ++ [pyStrip current])

/-- `chunk_text_for_agent(text, max_chunk_chars)` from the source:
split long text into chunks for downstream agent use. -/
def chunk_text_for_agent (text : List Char) (max_chunk_chars : Int := 1200) :
    List (List Char) :=
  chunkAux max_chunk_chars (splitNl text) [] []

/-- Render a group of lines the way the accumulator stores them: each line
followed by one line feed. -/
def joinLines (g : List (List Char)) : List Char :=
  (g.map (fun l => l ++ [ '\n' ])).flatten

/-- The spec's reference algorithm, following §4.1's words with the
accumulator kept as the list of lines it contains: iterate the lines in
order; for each line, if appending it (plus a line break) keeps the
accumulator's length ≤ `maxChunkChars`, append it; otherwise flush the
accumulator (trimmed of surrounding whitespace) as a completed chunk —
an empty accumulator yields no completed chunk — and start a new
accumulator containing just that line. -/
def specChunkAux (m : Int) : List (List Char) → List (List Char) →
    List (List Char) → List (List Char)
  | [], acc, chunks =>
    if acc = [] then chunks else chunks ++ [pyStrip (joinLines acc)]
  | l :: ls, acc, chunks =>
    if ((joinLines (acc ++ [l])).length : Int) ≤ m then
      specChunkAux m ls (acc ++ [l]) chunks
    else
      specChunkAux m ls [l]
        (if acc = [] then chunks else chunks ++ [pyStrip (joinLines acc)])

/-- The spec's reference chunker (§4.1): after all lines are processed a
non-empty accumulator is flushed as a final chunk. -/
def chunkSpec (text : List Char) (maxChunkChars : Int) : List (List Char) :=
  specChunkAux maxChunkChars (splitNl text) [] []

/-- What the orchestrator does before contacting the external service:
either it raises the missing-credential `ValueError`, or it proceeds to
build an `ApifyClient` with some API key and call the service. -/
inductive CrawlStart where
  | configError : CrawlStart
  | callService (apiKey : List Char) : CrawlStart
deriving DecidableEq

/-- The credential step of `crawl_womens_running_shoes` (source lines
72–76), with the environment passed explicitly: `envToken` is the value of
the `APIFY_API_TOKEN` environment variable (`none` when unset).

Python source:
```
api_key = os.getenv("APIFY_API_TOKEN", 'Mask')
if not api_key:
    raise ValueError("Missing APIFY_API_TOKEN environment variable.")
client = ApifyClient(api_key)
```
-/
def crawl_womens_running_shoes_start (envToken : Option (List Char)) :
    CrawlStart :=
  let apiKey := envToken.getD [ 'M', 'a', 's', 'k' ]
  if apiKey = [] then CrawlStart.configError else CrawlStart.callService apiKey

/-- One item of the external service's response: every field is optional
(`none` models an absent key; Python's `.get` defaults apply in the
record construction). -/
structure ServiceItem where
  url : Option (List Char)
  metadataTitle : Option (List Char)
  markdown : Option (List Char)
  text : Option (List Char)
  crawlDepth : Option Int
  crawlStatus : Option Int

/-- The per-page output record written to the JSON dataset. -/
structure PageRecord where
  url : Option (List Char)
  title : List Char
  text : List Char
  chunks : List (List Char)
  depth : Option Int
  status : Option Int

/-- Construction of one `PageRecord` from a service item (source lines
106–129). The external `markdownify.markdownify` conversion is passed as
the parameter `markdownify`. Python truthiness of strings (`None` and the
empty string are falsy) drives both fallbacks:
```
markdown = it.get("markdown")
if not markdown:
    markdown = markdownify.markdownify(it.get("text", ""), heading_style="ATX")
text = it.get("text", "") or markdown
entry = {"url": ..., "title": ..., "text": text,
         "chunks": chunk_text_for_agent(text, max_chunk_chars=1200), ...}
```
-/
def buildPageRecord (markdownify : List Char → List Char)
    (it : ServiceItem) : PageRecord :=
  let markdown :=
    if it.markdown.getD [] = [] then markdownify (it.text.getD [])
    else it.markdown.getD []
  let text := if it.text.getD [] = [] then markdown else it.text.getD []
  { url := it.url
    title := it.metadataTitle.getD []
    text := text
    chunks := chunk_text_for_agent text 1200
    depth := it.crawlDepth
    status := it.crawlStatus }

/-- Invariant maintained by the chunking loop's accumulator: either its
rendered length is within the limit, or it holds exactly one line. -/
def GoodAcc (m : Int) (g : List (List Char)) : Prop :=
  ((joinLines g).length : Int) ≤ m ∨ ∃ l, g = [l]

/- ### Helper lemmas -/

lemma length_dropWhile_le_self (p : Char → Bool) (l : List Char) :
    (l.dropWhile p).length ≤ l.length := by
  induction l with
  | nil => simp
  | cons c cs ih =>
    by_cases h : p c
    · simpa [List.dropWhile_cons, h] using Nat.le_succ_of_le ih
    · simp [List.dropWhile_cons, h]

lemma length_rdropWhile_le_self (p : Char → Bool) (l : List Char) :
    (l.rdropWhile p).length ≤ l.length := by
  have := length_dropWhile_le_self p l.reverse
  simpa [List.rdropWhile] using this

lemma length_pyStrip_le (l : List Char) : (pyStrip l).length ≤ l.length :=
  le_trans (length_rdropWhile_le_self _ _) (length_dropWhile_le_self _ _)

lemma dropWhile_head_false {p : Char → Bool} {c : Char} {cs : List Char}
    (h : List.dropWhile p (c :: cs) = c :: cs) : p c = false := by
  by_cases hp : p c
  · exfalso
    rw [List.dropWhile_cons_of_pos hp] at h
    have hle := length_dropWhile_le_self p cs
    rw [h] at hle
    simp at hle
  · simpa using hp

lemma dropWhile_rdropWhile_of_fixed {p : Char → Bool} {a : List Char}
    (h : List.dropWhile p a = a) :
    List.dropWhile p (a.rdropWhile p) = a.rdropWhile p := by
  cases a with
  | nil => simp [List.rdropWhile]
  | cons c cs =>
    have hc : p c = false := dropWhile_head_false h
    rw [List.rdropWhile]
    rw [List.reverse_cons, List.dropWhile_append]
    rcases hd : List.dropWhile p cs.reverse with _ | ⟨d, ds⟩
    · simp [List.dropWhile_cons, hc]
    · simp [List.dropWhile_cons, hc]

lemma pyStrip_idem (l : List Char) : pyStrip (pyStrip l) = pyStrip l := by
  unfold pyStrip
  rw [dropWhile_rdropWhile_of_fixed (List.dropWhile_idempotent _ _),
    List.rdropWhile_idempotent]

lemma pyStrip_append_newline (l : List Char) :
    pyStrip (l ++ [ '\n' ]) = pyStrip l := by
  unfold pyStrip
  rw [List.dropWhile_append]
  by_cases he : (List.dropWhile isSpaceChar l).isEmpty
  · have h1 : List.dropWhile isSpaceChar [ '\n' ] = [] := by decide
    rw [if_pos he, h1]
    rw [List.isEmpty_iff] at he
    rw [he]
  · rw [if_neg he]
    exact List.rdropWhile_concat_pos _ _ _ (by decide)

lemma splitNl_ne_nil (s : List Char) : splitNl s ≠ [] := by
  cases s with
  | nil => simp [splitNl]
  | cons c cs =>
    rw [splitNl]
    by_cases h : c = '\n'
    · simp [h]
    · rw [if_neg h]
      rcases splitNl cs with _ | ⟨l, ls⟩ <;> simp

lemma splitNl_single {l : List Char} (h : ∀ c ∈ l, c ≠ '\n') :
    splitNl l = [l] := by
  induction l with
  | nil => rfl
  | cons c cs ih =>
    have hc : ¬c = '\n' := h c (by simp)
    have ih' : splitNl cs = [cs] := ih (fun x hx => h x (by simp [hx]))
    rw [splitNl, if_neg hc, ih']

lemma joinLines_nil : joinLines [] = [] := rfl

lemma joinLines_append (a b : List (List Char)) :
    joinLines (a ++ b) = joinLines a ++ joinLines b := by
  simp [joinLines]

lemma joinLines_singleton (l : List Char) :
    joinLines [l] = l ++ [ '\n' ] := by
  simp [joinLines]

lemma joinLines_eq_nil_iff (g : List (List Char)) :
    joinLines g = [] ↔ g = [] := by
  cases g with
  | nil => simp [joinLines]
  | cons l ls => simp [joinLines]

lemma length_joinLines_append_singleton (g : List (List Char))
    (l : List Char) :
    (joinLines (g ++ [l])).length = (joinLines g).length + l.length + 1 := by
  rw [joinLines_append, joinLines_singleton]
  simp
  omega

lemma chunkAux_chunks_acc (m : Int) (ps : List (List Char)) :
    ∀ (current : List Char) (chunks : List (List Char)),
      chunkAux m ps current chunks = chunks ++ chunkAux m ps current [] := by
  induction ps with
  | nil =>
    intro current chunks
    by_cases h : current = [] <;> simp [chunkAux, h]
  | cons p ps ih =>
    intro current chunks
    rw [chunkAux, chunkAux]
    by_cases h : (current.length : Int) + (p.length : Int) + 1 ≤ m
    · rw [if_pos h, if_pos h, ih]
    · rw [if_neg h, if_neg h]
      by_cases hc : current = []
      · simp only [hc, if_true, reduceIte]
        exact ih _ _
      · simp only [hc, if_false, reduceIte]
        rw [ih _ (chunks ++ [pyStrip current]), ih _ ([] ++ [pyStrip current])]
        simp

lemma chunkAux_first_step (m : Int) (p : List Char) (ps : List (List Char)) :
    chunkAux m (p :: ps) [] [] = chunkAux m ps (p ++ [ '\n' ]) [] := by
  rw [chunkAux]
  by_cases h : ((List.length ([] : List Char) : Int) + (p.length : Int) + 1 ≤ m)
  · rw [if_pos h]
    simp
  · rw [if_neg h]
    simp

lemma chunkAux_partition (m : Int) :
    ∀ (ps : List (List Char)) (cg : List (List Char)), cg ≠ [] →
      GoodAcc m cg →
      ∃ gs : List (List (List Char)),
        chunkAux m ps (joinLines cg) [] =
          gs.map (fun g => pyStrip (joinLines g)) ∧
        gs.flatten = cg ++ ps ∧
        ∀ g ∈ gs, g ≠ [] ∧ GoodAcc m g := by
  intro ps
  induction ps with
  | nil =>
    intro cg hne hgood
    refine ⟨[cg], ?_, by simp, ?_⟩
    · rw [chunkAux, if_neg ((not_congr (joinLines_eq_nil_iff cg)).mpr hne)]
      simp
    · intro g hg
      simp only [List.mem_singleton] at hg
      subst hg
      exact ⟨hne, hgood⟩
  | cons p ps ih =>
    intro cg hne hgood
    rw [chunkAux]
    by_cases h : ((joinLines cg).length : Int) + (p.length : Int) + 1 ≤ m
    · rw [if_pos h]
      have hjoin : joinLines cg ++ p ++ [ '\n' ] = joinLines (cg ++ [p]) := by
        rw [joinLines_append, joinLines_singleton, List.append_assoc]
      rw [hjoin]
      have hgood' : GoodAcc m (cg ++ [p]) := by
        left
        rw [length_joinLines_append_singleton]
        push_cast
        omega
      obtain ⟨gs, h1, h2, h3⟩ := ih (cg ++ [p]) (by simp) hgood'
      exact ⟨gs, h1, by rw [h2]; simp, h3⟩
    · rw [if_neg h, if_neg ((not_congr (joinLines_eq_nil_iff cg)).mpr hne)]
      rw [chunkAux_chunks_acc]
      obtain ⟨gs, h1, h2, h3⟩ := ih [p] (by simp) (Or.inr ⟨p, rfl⟩)
      rw [joinLines_singleton] at h1
      refine ⟨cg :: gs, ?_, ?_, ?_⟩
      · rw [h1]
        simp
      · rw [List.flatten_cons, h2]
        simp
      · intro g hg
        rcases List.mem_cons.mp hg with hg | hg
        · subst hg
          exact ⟨hne, hgood⟩
        · exact h3 g hg

lemma chunk_partition (t : List Char) (m : Int) :
    ∃ gs : List (List (List Char)),
      chunk_text_for_agent t m = gs.map (fun g => pyStrip (joinLines g)) ∧
      gs.flatten = splitNl t ∧
      ∀ g ∈ gs, g ≠ [] ∧ GoodAcc m g := by
  rw [chunk_text_for_agent]
  rcases hs : splitNl t with _ | ⟨p, ps⟩
  · exact absurd hs (splitNl_ne_nil t)
  · rw [chunkAux_first_step]
    rw [show p ++ [ '\n' ] = joinLines [p] from (joinLines_singleton p).symm]
    obtain ⟨gs, h1, h2, h3⟩ :=
      chunkAux_partition m ps [p] (by simp) (Or.inr ⟨p, rfl⟩)
    exact ⟨gs, h1, by rw [h2]; simp, h3⟩

lemma chunk_nil (m : Int) : chunk_text_for_agent [] m = [[]] := by
  rw [chunk_text_for_agent, show splitNl [] = [[]] from rfl,
    chunkAux_first_step, chunkAux]
  rw [if_neg (by simp : ¬([] ++ [ '\n' ] : List Char) = [])]
  simp only [List.nil_append]
  decide

lemma chunkAux_nonpos {m : Int} (hm : m ≤ 0) :
    ∀ (ps : List (List Char)) (p : List Char),
      chunkAux m ps (p ++ [ '\n' ]) [] =
        pyStrip (p ++ [ '\n' ]) :: ps.map (fun l => pyStrip (l ++ [ '\n' ])) := by
  intro ps
  induction ps with
  | nil =>
    intro p
    rw [chunkAux, if_neg (by simp)]
    simp
  | cons q ps ih =>
    intro p
    rw [chunkAux]
    have hcond : ¬(((p ++ [ '\n' ]).length : Int) + (q.length : Int) + 1 ≤ m) := by
      rw [List.length_append]
      push_cast
      simp only [List.length_cons, List.length_nil]
      omega
    rw [if_neg hcond, if_neg (by simp), chunkAux_chunks_acc, ih]
    simp

lemma length_le_length_flatten {α : Type} :
    ∀ gs : List (List α), (∀ g ∈ gs, g ≠ []) →
      gs.length ≤ gs.flatten.length := by
  intro gs
  induction gs with
  | nil => simp
  | cons g gs ih =>
    intro h
    have hg : g ≠ [] := h g (by simp)
    have hlen : 1 ≤ g.length := List.length_pos.mpr hg
    have hrest := ih (fun x hx => h x (by simp [hx]))
    simp only [List.flatten_cons, List.length_append, List.length_cons]
    omega

lemma specChunkAux_eq_chunkAux (m : Int) :
    ∀ (ps acc : List (List Char)) (chunks : List (List Char)),
      specChunkAux m ps acc chunks = chunkAux m ps (joinLines acc) chunks := by
  intro ps
  induction ps with
  | nil =>
    intro acc chunks
    rw [specChunkAux, chunkAux]
    by_cases h : acc = []
    · rw [if_pos h, if_pos (by rw [h, joinLines_nil])]
    · rw [if_neg h, if_neg ((not_congr (joinLines_eq_nil_iff acc)).mpr h)]
  | cons l ls ih =>
    intro acc chunks
    rw [specChunkAux, chunkAux]
    have hlen : ((joinLines (acc ++ [l])).length : Int) =
        ((joinLines acc).length : Int) + (l.length : Int) + 1 := by
      rw [length_joinLines_append_singleton]
      push_cast
      ring
    by_cases h : ((joinLines acc).length : Int) + (l.length : Int) + 1 ≤ m
    · rw [if_pos (by rw [hlen]; exact h), if_pos h, ih]
      rw [joinLines_append, joinLines_singleton, List.append_assoc]
    · rw [if_neg (by rw [hlen]; exact h), if_neg h, ih, joinLines_singleton]
      by_cases hacc : acc = []
      · rw [if_pos hacc, if_pos (by rw [hacc, joinLines_nil])]
      · rw [if_neg hacc, if_neg ((not_congr (joinLines_eq_nil_iff acc)).mpr hacc)]

lemma pyStrip_replicate_a : pyStrip (List.replicate 2000 'a') =
    List.replicate 2000 'a' := by
  unfold pyStrip
  rw [List.dropWhile_replicate, if_neg (by decide), List.rdropWhile,
    List.reverse_replicate, List.dropWhile_replicate, if_neg (by decide),
    List.reverse_replicate]

/- ### Claim theorems -/

/-- C1 counterexample: the claim says `chunk_text_for_agent "" m` is an
empty sequence for any `m > 0`, but at `m = 1200` the code returns the
one-element list `[""]`: the loop runs once on the single empty line,
`current` becomes `"\n"`, and the final flush appends `"".` -/
theorem C1_counterexample : ¬(chunk_text_for_agent [] 1200 = []) := by
  decide

/-- C1 (amended): for every positive limit `m`, `chunk_text_for_agent`
applied to the empty string returns the one-element sequence containing
the empty string. -/
theorem C1_empty_input (m : Int) (hm : 0 < m) :
    chunk_text_for_agent [] m = [ [] ] :=
  chunk_nil m

/-- C1 witness at the default limit 1200. -/
theorem C1_empty_input_witness : chunk_text_for_agent [] 1200 = [ [] ] :=
  C1_empty_input 1200 (by decide)

/-- C2: the claim says a missing `APIFY_API_TOKEN` makes
`crawl_womens_running_shoes` raise a configuration error before contacting
the external service. The code instead defaults the token to the
placeholder string `'Mask'` (`os.getenv("APIFY_API_TOKEN", 'Mask')`), so
with the variable unset the guard `if not api_key` never fires and the
function proceeds to call the service with the bogus key — contradicting
the code's own error message and docstring. This theorem evaluates the
credential step at the failing input (variable unset). -/
theorem C2_missing_credential_proceeds :
    crawl_womens_running_shoes_start none =
      CrawlStart.callService [ 'M', 'a', 's', 'k' ] := by
  decide

/-- C3: for every text `t` and positive limit `m`, the chunks are exactly
the flush-time-trimmed renderings of a partition of `t`'s line sequence
into consecutive non-empty groups — so, undoing only the trimming applied
at flush time, the chunks reproduce the original line sequence in order,
with no lines dropped, duplicated, or reordered. -/
theorem C3_line_sequence_reconstruction (t : List Char) (m : Int)
    (hm : 0 < m) :
    ∃ gs : List (List (List Char)),
      gs.flatten = splitNl t ∧ (∀ g ∈ gs, g ≠ []) ∧
      chunk_text_for_agent t m = gs.map (fun g => pyStrip (joinLines g)) := by
  obtain ⟨gs, h1, h2, h3⟩ := chunk_partition t m
  exact ⟨gs, h2, fun g hg => (h3 g hg).1, h1⟩

/-- C3 witness on the two-line text `"a\nb"` with limit 7. -/
theorem C3_line_sequence_reconstruction_witness :
    ∃ gs : List (List (List Char)),
      gs.flatten = splitNl [ 'a', '\n', 'b' ] ∧ (∀ g ∈ gs, g ≠ []) ∧
      chunk_text_for_agent [ 'a', '\n', 'b' ] 7 =
        gs.map (fun g => pyStrip (joinLines g)) :=
  C3_line_sequence_reconstruction [ 'a', '\n', 'b' ] 7 (by decide)

/-- C4: for every text `t` and positive limit `m`, every chunk has length
≤ `m`, unless it is the flush of a single source line of `t` whose own
length exceeds `m` (emitted as its own oversized chunk). -/
theorem C4_chunk_length_bound (t : List Char) (m : Int) (hm : 0 < m) :
    ∀ c ∈ chunk_text_for_agent t m,
      (c.length : Int) ≤ m ∨
      ∃ l ∈ splitNl t, m < (l.length : Int) ∧ c = pyStrip l := by
  intro c hc
  obtain ⟨gs, h1, h2, h3⟩ := chunk_partition t m
  rw [h1] at hc
  obtain ⟨g, hg, rfl⟩ := List.mem_map.mp hc
  obtain ⟨hne, hgood⟩ := h3 g hg
  rcases hgood with hlen | ⟨l, rfl⟩
  · left
    calc ((pyStrip (joinLines g)).length : Int)
        ≤ ((joinLines g).length : Int) := by
          exact_mod_cast length_pyStrip_le _
      _ ≤ m := hlen
  · rw [joinLines_singleton, pyStrip_append_newline]
    rcases le_or_lt ((l.length : Int)) m with hle | hgt
    · left
      calc ((pyStrip l).length : Int) ≤ (l.length : Int) := by
            exact_mod_cast length_pyStrip_le l
        _ ≤ m := hle
    · right
      refine ⟨l, ?_, hgt, rfl⟩
      rw [← h2]
      exact List.mem_flatten.mpr ⟨[l], hg, by simp⟩

/-- C4 witness: the single oversized line `"abc"` at limit 1 is its own
chunk, satisfying the oversized-line disjunct. -/
theorem C4_chunk_length_bound_witness :
    ((([ 'a', 'b', 'c' ] : List Char).length : Int) ≤ 1 ∨
      ∃ l ∈ splitNl [ 'a', 'b', 'c' ], 1 < (l.length : Int) ∧
        ([ 'a', 'b', 'c' ] : List Char) = pyStrip l) :=
  C4_chunk_length_bound [ 'a', 'b', 'c' ] 1 (by decide) [ 'a', 'b', 'c' ]
    (by decide)

/-- C5: the spec's reference algorithm (`chunkSpec`, accumulator kept as a
list of lines, each contributing its length plus one line break) computes
exactly `chunk_text_for_agent` for every text and positive limit. -/
theorem C5_spec_refinement (t : List Char) (m : Int) (hm : 0 < m) :
    chunkSpec t m = chunk_text_for_agent t m := by
  rw [chunkSpec, chunk_text_for_agent, specChunkAux_eq_chunkAux,
    joinLines_nil]

/-- C5 witness on `"a\nbb"` with limit 3. -/
theorem C5_spec_refinement_witness :
    chunkSpec [ 'a', '\n', 'b', 'b' ] 3 =
      chunk_text_for_agent [ 'a', '\n', 'b', 'b' ] 3 :=
  C5_spec_refinement [ 'a', '\n', 'b', 'b' ] 3 (by decide)

/-- C6: a single input line (no line feed in it) longer than the limit is
returned as its own chunk, unsplit (only stripped at flush); in
particular `chunk_text_for_agent ("a"*2000) 1200` is one chunk of length
2000. -/
theorem C6_oversized_single_line :
    (∀ (l : List Char) (m : Int), (∀ c ∈ l, c ≠ '\n') →
        m < (l.length : Int) → chunk_text_for_agent l m = [pyStrip l]) ∧
    chunk_text_for_agent (List.replicate 2000 'a') 1200 =
      [List.replicate 2000 'a'] ∧
    (List.replicate 2000 'a').length = 2000 := by
  have hsingle : ∀ (l : List Char) (m : Int), (∀ c ∈ l, c ≠ '\n') →
      chunk_text_for_agent l m = [pyStrip l] := by
    intro l m hl
    rw [chunk_text_for_agent, splitNl_single hl, chunkAux_first_step,
      chunkAux, if_neg (by simp), pyStrip_append_newline]
    simp
  refine ⟨fun l m hl _ => hsingle l m hl, ?_, by rw [List.length_replicate]⟩
  rw [hsingle (List.replicate 2000 'a') 1200 (fun c hc => by
    rw [List.eq_of_mem_replicate hc]; decide), pyStrip_replicate_a]

/-- C6 witness: the general single-line statement applied to the
oversized line `"ab"` at limit 1. -/
theorem C6_oversized_single_line_witness :
    chunk_text_for_agent [ 'a', 'b' ] 1 = [pyStrip [ 'a', 'b' ]] :=
  C6_oversized_single_line.1 [ 'a', 'b' ] 1 (by decide) (by decide)

/-- C7 counterexample: for a service item with neither `text` nor
`markdown` the claim says the record's text-derived fields are empty, but
`chunks` is `chunk_text_for_agent "" 1200 = [""]`, a non-empty list (even
with a markdown conversion sending empty input to empty output, here the
identity function). -/
theorem C7_counterexample :
    ¬((buildPageRecord (fun x => x)
        ⟨none, none, none, none, none, none⟩).chunks = []) := by
  decide

/-- C7 (amended): with the external markdown conversion mapping empty
input to empty output, an item with `text` present and `markdown` absent
yields a record whose `text` equals the item's `text` verbatim; an item
with neither `text` nor `markdown` yields an empty `text` field and a
`chunks` field equal to the one-element list containing the empty
string. -/
theorem C7_record_fields (markdownify : List Char → List Char)
    (hmd : markdownify [] = []) (it : ServiceItem)
    (hmk : it.markdown = none) :
    (∀ T, it.text = some T → (buildPageRecord markdownify it).text = T) ∧
    (it.text = none → (buildPageRecord markdownify it).text = [] ∧
      (buildPageRecord markdownify it).chunks = [ [] ]) := by
  constructor
  · intro T htx
    simp only [buildPageRecord, hmk, htx, Option.getD_some, Option.getD_none]
    by_cases hT : T = []
    · subst hT
      simp [hmd]
    · simp [hT]
  · intro htx
    simp only [buildPageRecord, hmk, htx, Option.getD_none]
    simp [hmd, chunk_nil]

/-- C7 witness: both branches of the amended claim at concrete items,
with the identity function standing in for the markdown conversion. -/
theorem C7_record_fields_witness :
    (buildPageRecord (fun x => x)
        ⟨none, none, none, some [ 'h', 'i' ], none, none⟩).text =
      [ 'h', 'i' ] ∧
    ((buildPageRecord (fun x => x)
        ⟨none, none, none, none, none, none⟩).text = [] ∧
      (buildPageRecord (fun x => x)
        ⟨none, none, none, none, none, none⟩).chunks = [ [] ]) :=
  ⟨(C7_record_fields (fun x => x) rfl
      ⟨none, none, none, some [ 'h', 'i' ], none, none⟩ rfl).1
      [ 'h', 'i' ] rfl,
    (C7_record_fields (fun x => x) rfl
      ⟨none, none, none, none, none, none⟩ rfl).2 rfl⟩

/-- C8: `chunk_text_for_agent` is total — it is a terminating function of
the embedding, and for every text and positive limit it returns a list,
whose length is moreover bounded by the number of input lines. -/
theorem C8_total (t : List Char) (m : Int) (hm : 0 < m) :
    ∃ cs : List (List Char), chunk_text_for_agent t m = cs ∧
      cs.length ≤ (splitNl t).length := by
  obtain ⟨gs, h1, h2, h3⟩ := chunk_partition t m
  refine ⟨_, h1, ?_⟩
  rw [List.length_map, ← h2]
  exact length_le_length_flatten gs (fun g hg => (h3 g hg).1)

/-- C8 witness on the one-line text `"x"` at limit 9. -/
theorem C8_total_witness :
    ∃ cs : List (List Char), chunk_text_for_agent [ 'x' ] 9 = cs ∧
      cs.length ≤ (splitNl [ 'x' ]).length :=
  C8_total [ 'x' ] 9 (by decide)

/-- C9: every chunk produced by `chunk_text_for_agent`, for every text and
every integer limit, is its own strip (`c.strip() == c`): each flush
appends the stripped accumulator and `pyStrip` is idempotent. -/
theorem C9_chunks_stripped (t : List Char) (m : Int) :
    ∀ c ∈ chunk_text_for_agent t m, pyStrip c = c := by
  intro c hc
  obtain ⟨gs, h1, h2, h3⟩ := chunk_partition t m
  rw [h1] at hc
  obtain ⟨g, hg, rfl⟩ := List.mem_map.mp hc
  exact pyStrip_idem _

/-- C9 witness: the chunk produced from `" a"` at limit 0 is stripped. -/
theorem C9_chunks_stripped_witness : pyStrip [ 'a' ] = [ 'a' ] :=
  C9_chunks_stripped [ ' ', 'a' ] 0 [ 'a' ] (by decide)

/-- C10: for every text and every limit `m ≤ 0` the function still
terminates and returns one chunk per input line: the append condition
never holds, so every newline-separated line is flushed on its own as a
stripped chunk. -/
theorem C10_nonpositive_limit (t : List Char) (m : Int) (hm : m ≤ 0) :
    chunk_text_for_agent t m = (splitNl t).map pyStrip := by
  rw [chunk_text_for_agent]
  rcases hs : splitNl t with _ | ⟨p, ps⟩
  · exact absurd hs (splitNl_ne_nil t)
  · rw [chunkAux_first_step, chunkAux_nonpos hm]
    simp [pyStrip_append_newline]

/-- C10 witness on the text `"a\n b"` at limit −2. -/
theorem C10_nonpositive_limit_witness :
    chunk_text_for_agent [ 'a', '\n', ' ', 'b' ] (-2) =
      (splitNl [ 'a', '\n', ' ', 'b' ]).map pyStrip :=
  C10_nonpositive_limit [ 'a', '\n', ' ', 'b' ] (-2) (by decide)

end WebCrawling
